import Mathlib

/-!
Verification of `detect-speech.py`.

The script locates the first and last speech in an audio file with a stateful
voice-activity detector (Silero VAD, consumed as a black box), then invokes
ffmpeg to trim the file.  This development shallowly embeds the scanning and
driver logic:

* Audio is a `List α` of mono samples at the detector rate of 16000 Hz
  (the resampler-free path `original_sample_rate == VAD_SAMPLING_RATE`);
  the header duration is `length / 16000` seconds, and
  `decoder.get_samples_played_in_range(a, b)` yields the samples whose
  indices lie in `[⌊a·16000⌋, ⌊b·16000⌋)`.
* The detector (`VADIterator`) is an abstract stateful step function
  `σ → List α → σ × Option SpeechDict`; a returned dict may carry a
  `"start"` and/or an `"end"` cumulative sample index, exactly the two keys
  the script inspects.  `initState` is the state of a fresh iterator and the
  state restored by `reset_states()`.
* Python floats that hold seconds are modelled as `ℚ`; all arithmetic the
  script performs on them (`+`, `-`, `min`, `max`, `/ 16000`, comparisons)
  is exact at these magnitudes, so `ℚ` is a faithful model.
* The two `while` loops advance their offset by the chunk size and are
  translated by first materialising the list of chunk intervals the loop
  visits (`forwardIntervals` / `backwardIntervals`, driven by a chunk count
  that provably suffices) and then folding the loop body over that list
  (`forwardGo` / `backwardGo`), with the detector state threaded exactly as
  the script threads its iterator objects.
* Process-level effects (model load, audio open, ffmpeg presence and exit
  status) are an `Env` record; `sys.exit(1)` and the two
  "No speech detected" early returns (which leave exit code 0 and write no
  file) are the constructors of `ProgResult`.
-/

/-- `VAD_SAMPLING_RATE = 16000`: Silero VAD expects 16 kHz mono audio. -/
def VAD_SAMPLING_RATE : ℕ := 16000

/-- `VAD_WINDOW_SIZE_SAMPLES = 512`: VAD window size for processing chunks. -/
def VAD_WINDOW_SIZE_SAMPLES : ℕ := 512

/-- `chunk_processing_size_seconds = 5.0`: process audio in 5-second chunks. -/
def chunk_processing_size_seconds : ℚ := 5

/-- The dictionary a `VADIterator` call may return: it can carry a `"start"`
and/or an `"end"` key, each holding a cumulative sample index (cumulative
over the samples fed since the iterator's state was last reset). -/
structure SpeechDict where
  startIdx : Option ℕ
  endIdx : Option ℕ
deriving DecidableEq, Repr

/-- The black-box stateful speech detector: `initState` is the state of a
freshly constructed `VADIterator(model)` and the state installed by
`reset_states()`; `step` consumes one fixed-size window and returns the
updated state together with the optional speech dict. -/
structure VAD (σ : Type) (α : Type) where
  initState : σ
  step : σ → List α → σ × Option SpeechDict

/-- `decoder.metadata.duration_seconds_from_header` for a well-formed file:
the sample count over the sample rate. -/
def durationSeconds {α : Type} (audio : List α) : ℚ :=
  (audio.length : ℚ) / (VAD_SAMPLING_RATE : ℚ)

/-- `decoder.get_samples_played_in_range(a, b)`: the samples with indices in
`[⌊a·16000⌋, ⌊b·16000⌋)`.  Every range the script requests has exact sample
boundaries, so the floors are only a totalisation device. -/
def getSamplesInRange {α : Type} (audio : List α) (a b : ℚ) : List α :=
  (audio.take (Int.toNat ⌊b * (VAD_SAMPLING_RATE : ℚ)⌋)).drop
    (Int.toNat ⌊a * (VAD_SAMPLING_RATE : ℚ)⌋)

/-- Fuel-driven worker for `completeWindows`; the fuel is the list length,
which bounds the number of windows. -/
def windowsAux {α : Type} (w : ℕ) : ℕ → List α → List (List α)
  | 0, _ => []
  | fuel + 1, l =>
    if w ≤ l.length ∧ 0 < w then l.take w :: windowsAux w fuel (l.drop w)
    else []

/-- `for i in range(0, len(wav), W): window = wav[i : i + W]` together with
`if len(window) < W: continue`: the complete `w`-sample windows of a chunk,
in order; a trailing partial window is discarded. -/
def completeWindows {α : Type} (w : ℕ) (l : List α) : List (List α) :=
  windowsAux w l.length l

/-- The per-window loop of the trim-start logic: feed windows to the
detector until the first dict containing a `"start"` key, and return the
state together with that cumulative start index (`break` on success). -/
def feedForward {σ α : Type} (D : VAD σ α) : σ → List (List α) → σ × Option ℕ
  | s, [] => (s, none)
  | s, w :: ws =>
    let r := D.step s w
    match r.2 with
    | some d =>
      match d.startIdx with
      | some n => (r.1, some n)
      | none => feedForward D r.1 ws
    | none => feedForward D r.1 ws

/-- The per-window loop of the trim-end logic: feed every window of the
chunk, tracking `last_speech_offset_in_chunk_vad_sr` (updated on every
`"end"` key) and `is_speaking_in_chunk` (set on `"start"`, cleared on
`"end"`); returns the final state, the last end offset, and the flag. -/
def feedBackward {σ α : Type} (D : VAD σ α) :
    σ → Option ℕ → Bool → List (List α) → σ × Option ℕ × Bool
  | s, lastEnd, speaking, [] => (s, lastEnd, speaking)
  | s, lastEnd, speaking, w :: ws =>
    let r := D.step s w
    match r.2 with
    | some d =>
      let speaking1 := if d.startIdx.isSome then true else speaking
      match d.endIdx with
      | some n => feedBackward D r.1 (some n) false ws
      | none => feedBackward D r.1 lastEnd speaking1 ws
    | none => feedBackward D r.1 lastEnd speaking ws

/-- Body of the trim-start `while` loop over its chunk intervals, with the
iterator state threaded across chunks (`vad_iterator_start` is created once
and never reset).  On the first `"start"` index `n` the loop returns
`n / VAD_SAMPLING_RATE` seconds. -/
def forwardGo {σ α : Type} (D : VAD σ α) (audio : List α) :
    σ → List (ℚ × ℚ) → Option ℚ
  | _, [] => none
  | s, (a, b) :: rest =>
    let chunk := getSamplesInRange audio a b
    let r := feedForward D s (completeWindows VAD_WINDOW_SIZE_SAMPLES chunk)
    match r.2 with
    | some n => some ((n : ℚ) / (VAD_SAMPLING_RATE : ℚ))
    | none => forwardGo D audio r.1 rest

/-- Body of the trim-end `while` loop over its chunk intervals.  The threaded
iterator state is overwritten by `vad_iterator_end.reset_states()` at the top
of every chunk.  If the chunk ends with `is_speaking_in_chunk` true, the
chunk length stands in for the last end offset; any recorded offset `n`
yields `chunk_start_for_request + n / VAD_SAMPLING_RATE` and stops the
scan. -/
def backwardGo {σ α : Type} (D : VAD σ α) (audio : List α) :
    σ → List (ℚ × ℚ) → Option ℚ
  | _, [] => none
  | _, (a, b) :: rest =>
    let chunk := getSamplesInRange audio a b
    let r :=
      feedBackward D D.initState none false
        (completeWindows VAD_WINDOW_SIZE_SAMPLES chunk)
    let eff : Option ℕ := if r.2.2 then some chunk.length else r.2.1
    match eff with
    | some n => some (a + (n : ℚ) / (VAD_SAMPLING_RATE : ℚ))
    | none => backwardGo D audio r.1 rest

/-- The chunk intervals `(current_offset, min (current_offset + c) total)`
the trim-start `while` loop visits, generated with enough fuel. -/
def forwardIntervals (c total : ℚ) : ℕ → ℚ → List (ℚ × ℚ)
  | 0, _ => []
  | n + 1, cur =>
    if cur < total then
      (cur, min (cur + c) total) :: forwardIntervals c total n (min (cur + c) total)
    else []

/-- An iteration count that provably suffices for the trim-start loop. -/
def forwardChunkBound (c total cur : ℚ) : ℕ := Int.toNat ⌈(total - cur) / c⌉

/-- The trim-start scan: a fresh detector state, chunks walked from time 0. -/
def forwardPass {σ α : Type} (D : VAD σ α) (audio : List α) (c total : ℚ) :
    Option ℚ :=
  forwardGo D audio D.initState
    (forwardIntervals c total (forwardChunkBound c total 0) 0)

/-- The chunk intervals `(max 0 (current_offset - c), current_offset)` the
trim-end `while` loop visits, walking backward from the end. -/
def backwardIntervals (c : ℚ) : ℕ → ℚ → List (ℚ × ℚ)
  | 0, _ => []
  | n + 1, cur =>
    if 0 < cur then
      (max 0 (cur - c), cur) :: backwardIntervals c n (max 0 (cur - c))
    else []

/-- An iteration count that provably suffices for the trim-end loop. -/
def backwardChunkBound (c total : ℚ) : ℕ := Int.toNat ⌈total / c⌉

/-- The trim-end scan: a fresh detector instance, chunks walked backward
from `total`. -/
def backwardPass {σ α : Type} (D : VAD σ α) (audio : List α) (c total : ℚ) :
    Option ℚ :=
  backwardGo D audio D.initState
    (backwardIntervals c (backwardChunkBound c total) total)

/-- The external environment of one invocation: whether the Silero model
loads, whether the audio file opens, whether ffmpeg is on the PATH, and the
exit code ffmpeg would return. -/
structure Env where
  modelLoads : Bool
  audioReads : Bool
  ffmpegInstalled : Bool
  ffmpegExitCode : ℕ
deriving DecidableEq, Repr

/-- Tokens of the constructed ffmpeg command line. -/
inductive Tok where
  | ffmpeg
  | hideBanner
  | nostdin
  | i
  | inputPath
  | ss
  | num (q : ℚ)
  | to
  | c
  | copy
  | y
  | outputPath
deriving DecidableEq, Repr

/-- Observable outcome of one invocation: `sys.exit(1)`, an early return
after "No speech detected at the start/end. Not creating an output file."
(exit code 0, no file written), or a completed ffmpeg run with the command
that was executed. -/
inductive ProgResult where
  | exitedWithError
  | noOutputStart
  | noOutputEnd
  | wroteOutput (cmd : List Tok)
deriving DecidableEq, Repr

/-- The ffmpeg command of lines 175-194: `-ss` with the resolved start is
always present; `-to` with the resolved end is appended only when
`final_end_seconds < total_duration_seconds`. -/
def buildCommand (final_start_seconds final_end_seconds total : ℚ) : List Tok :=
  [Tok.ffmpeg, Tok.hideBanner, Tok.nostdin, Tok.i, Tok.inputPath,
    Tok.ss, Tok.num final_start_seconds] ++
  (if final_end_seconds < total then [Tok.to, Tok.num final_end_seconds]
    else []) ++
  [Tok.c, Tok.copy, Tok.y, Tok.outputPath]

/-- `trim_audio_based_on_speech`: load the model, open the file, run the
enabled passes (a disabled pass leaves its boundary at `0` resp. `total`),
abort with no output if an enabled pass finds no speech, then run ffmpeg. -/
def trim_audio_based_on_speech {σ α : Type} (env : Env) (D : VAD σ α)
    (audio : List α) (trim_start trim_end : Bool) : ProgResult :=
  if env.modelLoads = false then ProgResult.exitedWithError
  else if env.audioReads = false then ProgResult.exitedWithError
  else
    let total := durationSeconds audio
    match
      (if trim_start then
        forwardPass D audio chunk_processing_size_seconds total
      else some 0) with
    | none => ProgResult.noOutputStart
    | some final_start_seconds =>
      match
        (if trim_end then
          backwardPass D audio chunk_processing_size_seconds total
        else some total) with
      | none => ProgResult.noOutputEnd
      | some final_end_seconds =>
        if env.ffmpegInstalled = false then ProgResult.exitedWithError
        else if env.ffmpegExitCode ≠ 0 then ProgResult.exitedWithError
        else
          ProgResult.wroteOutput
            (buildCommand final_start_seconds final_end_seconds total)

/-- The `__main__` flag resolution:
`call_trim_start = args.trim_start or (not args.trim_start and not
args.trim_end)` and symmetrically for `call_trim_end`. -/
def resolveTrimFlags (trim_start_arg trim_end_arg : Bool) : Bool × Bool :=
  (trim_start_arg || (!trim_start_arg && !trim_end_arg),
   trim_end_arg || (!trim_start_arg && !trim_end_arg))

/-- The complete windows of one chunk interval. -/
def chunkWindows {α : Type} (audio : List α) (p : ℚ × ℚ) : List (List α) :=
  completeWindows VAD_WINDOW_SIZE_SAMPLES (getSamplesInRange audio p.1 p.2)

/-- All windows a scan over the interval list `l` can feed, in order. -/
def joinWindows {α : Type} (audio : List α) (l : List (ℚ × ℚ)) :
    List (List α) :=
  (l.map (chunkWindows audio)).flatten

/-- The concatenated sample slices of the interval list `l`. -/
def chunkSlices {α : Type} (audio : List α) (l : List (ℚ × ℚ)) : List α :=
  (l.map (fun p => getSamplesInRange audio p.1 p.2)).flatten

/-- Total sample count of a window list. -/
def sumLen {α : Type} (ws : List (List α)) : ℕ := (ws.map List.length).sum

/-- Modelled from the spec: the forward pass "runs one continuous state
across all chunks", i.e. it behaves as a single detector run over the
concatenation of every chunk's windows, returning the first `"start"`
index over the sampling rate. -/
def forwardContinuousSpec {σ α : Type} (D : VAD σ α) (audio : List α)
    (s : σ) (l : List (ℚ × ℚ)) : Option ℚ :=
  Option.map (fun n : ℕ => (n : ℚ) / (VAD_SAMPLING_RATE : ℚ))
    (feedForward D s (joinWindows audio l)).2

/-- Modelled from the spec: "the detector's running state must be reset at
the start of every backward chunk" — each chunk is scanned from the fresh
state, with no state carried between chunks at all. -/
def backwardPerChunkSpec {σ α : Type} (D : VAD σ α) (audio : List α) :
    List (ℚ × ℚ) → Option ℚ
  | [] => none
  | (a, b) :: rest =>
    let chunk := getSamplesInRange audio a b
    let r :=
      feedBackward D D.initState none false
        (completeWindows VAD_WINDOW_SIZE_SAMPLES chunk)
    let eff : Option ℕ := if r.2.2 then some chunk.length else r.2.1
    match eff with
    | some n => some (a + (n : ℚ) / (VAD_SAMPLING_RATE : ℚ))
    | none => backwardPerChunkSpec D audio rest

/-- A detector is index-sane when, for some sample counter on its states,
a fresh state has seen zero samples, each step adds the window's samples,
and every reported `"start"`/`"end"` index is at most the samples seen
since the last reset.  The real `VADIterator` reports cumulative sample
offsets of the audio it was fed, so it satisfies this. -/
def IndexSane {σ α : Type} (D : VAD σ α) (count : σ → ℕ) : Prop :=
  count D.initState = 0 ∧
  ∀ s w, count (D.step s w).1 = count s + w.length ∧
    ∀ d, (D.step s w).2 = some d →
      (∀ n, d.startIdx = some n → n ≤ count s + w.length) ∧
      (∀ n, d.endIdx = some n → n ≤ count s + w.length)

/-! Concrete detectors, inputs and environments used to instantiate the
theorems.  Their states count the samples fed since the last reset, so the
index-sane ones report offsets inside the audio they have seen, like the
real `VADIterator`. -/

/-- A detector that reports a speech start at offset 0 in its first window
and stays silent (hence "speaking") afterwards. -/
def vadStartOnly : VAD ℕ Unit :=
  ⟨0, fun s w => (s + w.length, if s = 0 then some ⟨some 0, none⟩ else none)⟩

/-- A detector that never reports speech. -/
def vadNever : VAD ℕ Unit := ⟨0, fun s w => (s + w.length, none)⟩

/-- An index-sane detector whose second window since reset carries a start
at offset 900 together with an end at offset 100. -/
def vadC4 : VAD ℕ Unit :=
  ⟨0, fun s w =>
    (s + w.length,
      if s = 512 then
        some ⟨some (min 900 (s + w.length)), some (min 100 (s + w.length))⟩
      else none)⟩

/-- Two windows of silence-like input for `vadC4`: 1024 samples. -/
def audioC4 : List Unit := List.replicate 1024 ()

/-- An index-sane detector whose second window since reset carries an end
at offset 1000. -/
def vadC5 : VAD ℕ Unit :=
  ⟨0, fun s w =>
    (s + w.length,
      if s = 512 then some ⟨none, some (min 1000 (s + w.length))⟩
      else none)⟩

/-- Four windows of input for `vadC5`: 2048 samples. -/
def audioC5 : List Unit := List.replicate 2048 ()

/-- 80001 samples whose value is their own index, so that "which samples
were ever fed" is visible in the fed stream itself. -/
def audioC6 : List ℕ := List.range 80001

/-- One window of input. -/
def audioOneWindow : List Unit := List.replicate 512 ()

/-- An environment where everything external succeeds. -/
def envOK : Env := ⟨true, true, true, 0⟩

section Helpers

variable {σ α : Type}

lemma windowsAux_congr (w : ℕ) :
    ∀ (f f' : ℕ) (l : List α), l.length ≤ f → l.length ≤ f' →
      windowsAux w f l = windowsAux w f' l := by
  intro f
  induction f with
  | zero =>
    intro f' l hf _
    have hl : l.length = 0 := Nat.le_zero.mp hf
    cases f' with
    | zero => rfl
    | succ f' =>
      simp only [windowsAux]
      rw [if_neg]
      rintro ⟨h1, h2⟩
      omega
  | succ f ih =>
    intro f' l hf hf'
    cases f' with
    | zero =>
      have hl : l.length = 0 := Nat.le_zero.mp hf'
      simp only [windowsAux]
      rw [if_neg]
      rintro ⟨h1, h2⟩
      omega
    | succ f' =>
      simp only [windowsAux]
      by_cases h : w ≤ l.length ∧ 0 < w
      · rw [if_pos h, if_pos h]
        have hd : (l.drop w).length ≤ f := by
          rw [List.length_drop]; omega
        have hd' : (l.drop w).length ≤ f' := by
          rw [List.length_drop]; omega
        rw [ih f' (l.drop w) hd hd']
      · rw [if_neg h, if_neg h]

/-- Unfolding equation for `completeWindows`. -/
lemma completeWindows_eq (w : ℕ) (l : List α) :
    completeWindows w l =
      if w ≤ l.length ∧ 0 < w then
        l.take w :: completeWindows w (l.drop w)
      else [] := by
  unfold completeWindows
  by_cases h : w ≤ l.length ∧ 0 < w
  · rw [if_pos h]
    obtain ⟨h1, h2⟩ := h
    have hlen : l.length = (l.length - 1) + 1 := by omega
    rw [hlen]
    simp only [windowsAux]
    rw [if_pos ⟨h1, h2⟩]
    congr 1
    apply windowsAux_congr
    · rw [List.length_drop]; omega
    · exact le_rfl
  · rw [if_neg h]
    cases hl : l.length with
    | zero => rfl
    | succ m =>
      simp only [windowsAux]
      rw [if_neg h]

lemma sumLen_append (ws₁ ws₂ : List (List α)) :
    sumLen (ws₁ ++ ws₂) = sumLen ws₁ + sumLen ws₂ := by
  simp [sumLen]

lemma completeWindows_sumLen_aux (w : ℕ) :
    ∀ (n : ℕ) (l : List α), l.length ≤ n →
      sumLen (completeWindows w l) ≤ l.length := by
  intro n
  induction n using Nat.strong_induction_on with
  | _ n ih =>
    intro l hl
    rw [completeWindows_eq]
    by_cases h : w ≤ l.length ∧ 0 < w
    · rw [if_pos h]
      have hlt : (l.drop w).length < n := by rw [List.length_drop]; omega
      have hrec := ih (l.drop w).length hlt (l.drop w) le_rfl
      simp only [sumLen, List.map_cons, List.sum_cons] at hrec ⊢
      have ht : (l.take w).length = w := by rw [List.length_take]; omega
      rw [List.length_drop] at hrec
      omega
    · rw [if_neg h]
      simp [sumLen]

lemma completeWindows_sumLen (w : ℕ) (l : List α) :
    sumLen (completeWindows w l) ≤ l.length :=
  completeWindows_sumLen_aux w l.length l le_rfl

lemma completeWindows_length_mem_aux (w : ℕ) :
    ∀ (n : ℕ) (l : List α), l.length ≤ n →
      ∀ u ∈ completeWindows w l, u.length = w := by
  intro n
  induction n using Nat.strong_induction_on with
  | _ n ih =>
    intro l hl u hu
    rw [completeWindows_eq] at hu
    by_cases h : w ≤ l.length ∧ 0 < w
    · rw [if_pos h] at hu
      rcases List.mem_cons.mp hu with h1 | h2
      · rw [h1, List.length_take]; omega
      · have hlt : (l.drop w).length < n := by rw [List.length_drop]; omega
        exact ih (l.drop w).length hlt (l.drop w) le_rfl u h2
    · rw [if_neg h] at hu
      simp at hu

lemma completeWindows_length_mem (w : ℕ) (l : List α) (u : List α)
    (hu : u ∈ completeWindows w l) : u.length = w :=
  completeWindows_length_mem_aux w l.length l le_rfl u hu

lemma joinWindows_nil (audio : List α) : joinWindows audio [] = [] := rfl

lemma joinWindows_cons (audio : List α) (p : ℚ × ℚ) (l : List (ℚ × ℚ)) :
    joinWindows audio (p :: l) =
      chunkWindows audio p ++ joinWindows audio l := by
  simp [joinWindows]

lemma joinWindows_append (audio : List α) (l₁ l₂ : List (ℚ × ℚ)) :
    joinWindows audio (l₁ ++ l₂) =
      joinWindows audio l₁ ++ joinWindows audio l₂ := by
  simp [joinWindows]

lemma feedForward_append_found (D : VAD σ α) :
    ∀ (ws₁ : List (List α)) (s s1 : σ) (n : ℕ) (ws₂ : List (List α)),
      feedForward D s ws₁ = (s1, some n) →
      feedForward D s (ws₁ ++ ws₂) = (s1, some n) := by
  intro ws₁
  induction ws₁ with
  | nil =>
    intro s s1 n ws₂ h
    simp [feedForward] at h
  | cons w ws ih =>
    intro s s1 n ws₂ h
    rw [List.cons_append]
    rcases hstep : D.step s w with ⟨s', d?⟩
    rw [feedForward, hstep] at h
    rw [feedForward, hstep]
    cases d? with
    | none => exact ih _ _ _ _ h
    | some d =>
      rcases d with ⟨sIdx, eIdx⟩
      cases sIdx with
      | none => exact ih _ _ _ _ h
      | some m => exact h

lemma feedForward_append_none (D : VAD σ α) :
    ∀ (ws₁ : List (List α)) (s s1 : σ) (ws₂ : List (List α)),
      feedForward D s ws₁ = (s1, none) →
      feedForward D s (ws₁ ++ ws₂) = feedForward D s1 ws₂ := by
  intro ws₁
  induction ws₁ with
  | nil =>
    intro s s1 ws₂ h
    simp [feedForward] at h
    rw [List.nil_append, h]
  | cons w ws ih =>
    intro s s1 ws₂ h
    rw [List.cons_append]
    rcases hstep : D.step s w with ⟨s', d?⟩
    rw [feedForward, hstep] at h
    rw [feedForward, hstep]
    cases d? with
    | none => exact ih _ _ _ h
    | some d =>
      rcases d with ⟨sIdx, eIdx⟩
      cases sIdx with
      | none => exact ih _ _ _ h
      | some m =>
        exact absurd (congrArg Prod.snd h) (by simp)

lemma getSamplesInRange_div (audio : List α) (i j : ℕ) :
    getSamplesInRange audio ((i : ℚ) / (VAD_SAMPLING_RATE : ℚ))
      ((j : ℚ) / (VAD_SAMPLING_RATE : ℚ)) = (audio.take j).drop i := by
  unfold getSamplesInRange
  have hR : ((VAD_SAMPLING_RATE : ℚ)) ≠ 0 := by norm_num [VAD_SAMPLING_RATE]
  rw [div_mul_cancel₀ _ hR, div_mul_cancel₀ _ hR,
    Int.floor_natCast, Int.floor_natCast]
  simp

lemma completeWindows_singleton (w : ℕ) (hw : 0 < w) (l : List α)
    (h : l.length = w) : completeWindows w l = [l] := by
  rw [completeWindows_eq, if_pos ⟨le_of_eq h.symm, hw⟩]
  rw [List.take_of_length_le (le_of_eq h)]
  congr 1
  rw [completeWindows_eq, if_neg]
  rintro ⟨h1, _⟩
  rw [List.length_drop, h] at h1
  omega

lemma completeWindows_replicate (w k r : ℕ) (hw : 0 < w) (hr : r < w)
    (x : α) :
    completeWindows w (List.replicate (w * k + r) x) =
      List.replicate k (List.replicate w x) := by
  induction k with
  | zero =>
    rw [completeWindows_eq, if_neg]
    · rfl
    · rintro ⟨h1, _⟩
      rw [List.length_replicate] at h1
      omega
  | succ k ih =>
    rw [completeWindows_eq, if_pos]
    · rw [List.take_replicate, List.drop_replicate]
      have h1 : min w (w * (k + 1) + r) = w := by
        have : w ≤ w * (k + 1) + r := by nlinarith
        omega
      have h2 : w * (k + 1) + r - w = w * k + r := by
        have : w * (k + 1) = w * k + w := by ring
        omega
      rw [h1, h2, ih]
      rfl
    · constructor
      · rw [List.length_replicate]; nlinarith
      · exact hw

/-- The trim-start loop with its threaded (never-reset) iterator state is
one continuous detector run over the concatenation of all chunk windows. -/
lemma forwardGo_eq_spec (D : VAD σ α) (audio : List α) :
    ∀ (l : List (ℚ × ℚ)) (s : σ),
      forwardGo D audio s l = forwardContinuousSpec D audio s l := by
  intro l
  induction l with
  | nil =>
    intro s
    simp [forwardGo, forwardContinuousSpec, joinWindows_nil, feedForward]
  | cons p rest ih =>
    intro s
    obtain ⟨a, b⟩ := p
    rw [forwardGo, forwardContinuousSpec, joinWindows_cons]
    simp only [chunkWindows]
    cases hr : feedForward D s
        (completeWindows VAD_WINDOW_SIZE_SAMPLES (getSamplesInRange audio a b)) with
    | mk s1 r2 =>
      cases r2 with
      | some n =>
        rw [feedForward_append_found D _ _ _ _ _ hr]
        simp
      | none =>
        rw [feedForward_append_none D _ _ _ _ hr]
        have h2 := ih s1
        rw [forwardContinuousSpec] at h2
        simpa using h2

/-- The trim-end loop scans every chunk from the freshly reset detector
state; the state it threads between iterations is irrelevant. -/
lemma backwardGo_eq_spec (D : VAD σ α) (audio : List α) :
    ∀ (l : List (ℚ × ℚ)) (s : σ),
      backwardGo D audio s l = backwardPerChunkSpec D audio l := by
  intro l
  induction l with
  | nil => intro s; rfl
  | cons p rest ih =>
    intro s
    obtain ⟨a, b⟩ := p
    rw [backwardGo, backwardPerChunkSpec]
    cases heff :
        (if (feedBackward D D.initState none false
              (completeWindows VAD_WINDOW_SIZE_SAMPLES
                (getSamplesInRange audio a b))).2.2 then
          some (getSamplesInRange audio a b).length
        else
          (feedBackward D D.initState none false
            (completeWindows VAD_WINDOW_SIZE_SAMPLES
              (getSamplesInRange audio a b))).2.1) with
    | none => simpa [heff] using ih _
    | some n => simp [heff]

end Helpers

/-- Claim C1: in the backward pass the detector state is reset at the start
of every backward chunk before any window of that chunk is fed (so the
state threaded into a chunk is irrelevant and each chunk is scanned from
the fresh state), whereas the forward pass runs one single detector state
continuously across all of its chunks with no reset between chunks (it is
equivalent to one detector run over the concatenated window stream). -/
theorem C1_backward_reset_forward_continuous {σ α : Type} (D : VAD σ α)
    (audio : List α) :
    (∀ (s₁ s₂ : σ) (l : List (ℚ × ℚ)),
        backwardGo D audio s₁ l = backwardGo D audio s₂ l) ∧
    (∀ (l : List (ℚ × ℚ)) (s : σ),
        backwardGo D audio s l = backwardPerChunkSpec D audio l) ∧
    (∀ (l : List (ℚ × ℚ)) (s : σ),
        forwardGo D audio s l = forwardContinuousSpec D audio s l) := by
  refine ⟨?_, ?_, ?_⟩
  · intro s₁ s₂ l
    rw [backwardGo_eq_spec D audio l s₁, backwardGo_eq_spec D audio l s₂]
  · exact backwardGo_eq_spec D audio
  · exact forwardGo_eq_spec D audio

lemma getSamplesInRange_zero_div {α : Type} (audio : List α) (j : ℕ) :
    getSamplesInRange audio 0 ((j : ℚ) / (VAD_SAMPLING_RATE : ℚ)) =
      audio.take j := by
  have h := getSamplesInRange_div audio 0 j
  simpa using h

/-- Claim C2: for a backward chunk, after its windows are exhausted, if the
speaking flag is still true the chunk's final sample position (the chunk
length) is the effective local end; and whenever speech was observed in the
chunk (the flag is true at chunk end, or a last end offset was recorded)
the pass returns `chunkStart + localEnd / VAD_SAMPLING_RATE` at once —
independently of the threaded state and of all earlier chunks `rest`. -/
theorem C2_backward_chunk_end {σ α : Type} (D : VAD σ α) (audio : List α)
    (s : σ) (a b : ℚ) (rest : List (ℚ × ℚ)) :
    ((feedBackward D D.initState none false
        (completeWindows VAD_WINDOW_SIZE_SAMPLES
          (getSamplesInRange audio a b))).2.2 = true →
      backwardGo D audio s ((a, b) :: rest) =
        some (a + ((getSamplesInRange audio a b).length : ℚ) /
          (VAD_SAMPLING_RATE : ℚ))) ∧
    (∀ n : ℕ,
      (feedBackward D D.initState none false
        (completeWindows VAD_WINDOW_SIZE_SAMPLES
          (getSamplesInRange audio a b))).2.2 = false →
      (feedBackward D D.initState none false
        (completeWindows VAD_WINDOW_SIZE_SAMPLES
          (getSamplesInRange audio a b))).2.1 = some n →
      backwardGo D audio s ((a, b) :: rest) =
        some (a + (n : ℚ) / (VAD_SAMPLING_RATE : ℚ))) := by
  constructor
  · intro h
    rw [backwardGo]
    simp only [h, if_true]
  · intro n hsp hlast
    rw [backwardGo]
    simp only [hsp, Bool.false_eq_true, if_false, hlast]

/-- Witness for C2 at a concrete detector, chunk and input. -/
theorem C2_backward_chunk_end_witness :
    backwardGo vadStartOnly audioOneWindow vadStartOnly.initState
        [(0, (512 : ℚ) / (VAD_SAMPLING_RATE : ℚ))] =
      some (0 + ((getSamplesInRange audioOneWindow 0
          ((512 : ℚ) / (VAD_SAMPLING_RATE : ℚ))).length : ℚ) /
        (VAD_SAMPLING_RATE : ℚ)) := by
  apply (C2_backward_chunk_end vadStartOnly audioOneWindow
    vadStartOnly.initState 0 ((512 : ℚ) / (VAD_SAMPLING_RATE : ℚ)) []).1
  have hchunk : getSamplesInRange audioOneWindow 0
      ((512 : ℚ) / (VAD_SAMPLING_RATE : ℚ)) = audioOneWindow := by
    have h512 : ((512 : ℕ) : ℚ) = (512 : ℚ) := by norm_num
    rw [← h512, getSamplesInRange_zero_div, audioOneWindow,
      List.take_replicate, min_self]
  rw [hchunk]
  have hw : completeWindows VAD_WINDOW_SIZE_SAMPLES audioOneWindow =
      [audioOneWindow] := by
    apply completeWindows_singleton
    · norm_num [VAD_WINDOW_SIZE_SAMPLES]
    · rw [audioOneWindow, List.length_replicate]
      rfl
  rw [hw]
  simp [feedBackward, vadStartOnly]

/-- Claim C3: the forward pass returns, on the first `"start"` event of the
continuous detector run, that event's cumulative sample index divided by
`VAD_SAMPLING_RATE`, and scans no further chunk (the result ignores any
intervals after the one that produced the event); if all its chunks are
exhausted with no start event it returns `none`, and the program then
reports no speech at the start and produces no output file. -/
theorem C3_forward_first_start {σ α : Type} (D : VAD σ α) (audio : List α) :
    (∀ (l₁ l₂ : List (ℚ × ℚ)) (s s1 : σ) (n : ℕ),
        feedForward D s (joinWindows audio l₁) = (s1, some n) →
        forwardGo D audio s (l₁ ++ l₂) =
          some ((n : ℚ) / (VAD_SAMPLING_RATE : ℚ))) ∧
    (∀ c total : ℚ,
        (feedForward D D.initState
          (joinWindows audio
            (forwardIntervals c total (forwardChunkBound c total 0) 0))).2 =
          none →
        forwardPass D audio c total = none) ∧
    (∀ (env : Env) (te : Bool),
        env.modelLoads = true → env.audioReads = true →
        forwardPass D audio chunk_processing_size_seconds
          (durationSeconds audio) = none →
        trim_audio_based_on_speech env D audio true te =
          ProgResult.noOutputStart) := by
  refine ⟨?_, ?_, ?_⟩
  · intro l₁ l₂ s s1 n h
    rw [forwardGo_eq_spec, forwardContinuousSpec, joinWindows_append,
      feedForward_append_found D _ _ _ _ _ h]
    rfl
  · intro c total h
    rw [forwardPass, forwardGo_eq_spec, forwardContinuousSpec, h]
    rfl
  · intro env te hml har hf
    rcases env with ⟨ml, ar, ff, code⟩
    simp only at hml har
    subst hml har
    simp only [trim_audio_based_on_speech, Bool.true_eq_false, if_false,
      if_true, hf]

lemma forwardPass_nil_eq_none {σ : Type} (D : VAD σ Unit) :
    forwardPass D ([] : List Unit) chunk_processing_size_seconds
      (durationSeconds ([] : List Unit)) = none := by
  have hd : durationSeconds ([] : List Unit) = 0 := by
    simp [durationSeconds]
  rw [hd, forwardPass]
  have hb : forwardChunkBound chunk_processing_size_seconds 0 0 = 0 := by
    simp [forwardChunkBound]
  rw [hb]
  rfl

/-- Witness for C3: a silent input makes the program produce no output. -/
theorem C3_forward_first_start_witness :
    trim_audio_based_on_speech envOK vadNever ([] : List Unit) true false =
      ProgResult.noOutputStart :=
  (C3_forward_first_start vadNever ([] : List Unit)).2.2 envOK false
    rfl rfl (forwardPass_nil_eq_none vadNever)

/-- Claim C9: the program exits with code 1 exactly on model-load failure,
audio-read failure, missing ffmpeg, or a non-zero ffmpeg exit (the latter
two only once every enabled pass succeeded); when an enabled side finds no
speech it returns with no output file and no error exit. -/
theorem C9_exit_codes {σ α : Type} (D : VAD σ α) (audio : List α)
    (env : Env) (ts te : Bool) :
    (trim_audio_based_on_speech env D audio ts te =
        ProgResult.exitedWithError ↔
      (env.modelLoads = false ∨ env.audioReads = false ∨
        ((ts = true →
            (forwardPass D audio chunk_processing_size_seconds
              (durationSeconds audio)).isSome = true) ∧
          (te = true →
            (backwardPass D audio chunk_processing_size_seconds
              (durationSeconds audio)).isSome = true) ∧
          (env.ffmpegInstalled = false ∨ env.ffmpegExitCode ≠ 0)))) ∧
    (env.modelLoads = true → env.audioReads = true → ts = true →
      forwardPass D audio chunk_processing_size_seconds
        (durationSeconds audio) = none →
      trim_audio_based_on_speech env D audio ts te =
        ProgResult.noOutputStart) ∧
    (env.modelLoads = true → env.audioReads = true →
      (ts = true →
        (forwardPass D audio chunk_processing_size_seconds
          (durationSeconds audio)).isSome = true) →
      te = true →
      backwardPass D audio chunk_processing_size_seconds
        (durationSeconds audio) = none →
      trim_audio_based_on_speech env D audio ts te =
        ProgResult.noOutputEnd) := by
  rcases env with ⟨ml, ar, ff, code⟩
  cases hf : forwardPass D audio chunk_processing_size_seconds
      (durationSeconds audio) <;>
    cases hb : backwardPass D audio chunk_processing_size_seconds
        (durationSeconds audio) <;>
      cases ml <;> cases ar <;> cases ts <;> cases te <;> cases ff <;>
        by_cases hc : code = 0 <;>
          simp [trim_audio_based_on_speech, hf, hb, hc]

/-- Witness for C9: no speech on the enabled start side is a silent no-op,
not an error exit. -/
theorem C9_exit_codes_witness :
    trim_audio_based_on_speech envOK vadNever ([] : List Unit) true true =
      ProgResult.noOutputStart :=
  (C9_exit_codes vadNever ([] : List Unit) envOK true true).2.1
    rfl rfl rfl (forwardPass_nil_eq_none vadNever)

lemma trim_nil_noflags_run :
    trim_audio_based_on_speech envOK vadNever ([] : List Unit) false false =
      ProgResult.wroteOutput
        (buildCommand 0 (durationSeconds ([] : List Unit))
          (durationSeconds ([] : List Unit))) := by
  simp [trim_audio_based_on_speech, envOK]

/-- Claim C7: the ffmpeg command always carries an explicit `-ss` start
bound (even when the resolved start is exactly 0, since the `-ss` pair is
present for every `fs`), and carries a `-to` end bound exactly when the
resolved end is strictly below the total duration; every command the
program executes is of this shape. -/
theorem C7_command_bounds {σ α : Type} (D : VAD σ α) (audio : List α)
    (env : Env) (ts te : Bool) :
    (∀ fs fe total : ℚ,
        List.IsInfix [Tok.ss, Tok.num fs] (buildCommand fs fe total) ∧
        (Tok.to ∈ buildCommand fs fe total ↔ fe < total)) ∧
    (∀ cmd : List Tok,
        trim_audio_based_on_speech env D audio ts te =
          ProgResult.wroteOutput cmd →
        ∃ fs fe : ℚ, cmd = buildCommand fs fe (durationSeconds audio)) := by
  constructor
  · intro fs fe total
    constructor
    · exact ⟨[Tok.ffmpeg, Tok.hideBanner, Tok.nostdin, Tok.i, Tok.inputPath],
        (if fe < total then [Tok.to, Tok.num fe] else []) ++
          [Tok.c, Tok.copy, Tok.y, Tok.outputPath],
        by simp [buildCommand]⟩
    · by_cases h : fe < total <;> simp [buildCommand, h]
  · intro cmd h
    rcases env with ⟨ml, ar, ff, code⟩
    cases ml
    · simp [trim_audio_based_on_speech] at h
    · cases ar
      · simp [trim_audio_based_on_speech] at h
      · rcases hfs : (if ts then
            forwardPass D audio chunk_processing_size_seconds
              (durationSeconds audio)
          else some 0) with _ | fs
        · simp [trim_audio_based_on_speech, hfs] at h
        · rcases hfe : (if te then
              backwardPass D audio chunk_processing_size_seconds
                (durationSeconds audio)
            else some (durationSeconds audio)) with _ | fe
          · simp [trim_audio_based_on_speech, hfs, hfe] at h
          · cases ff
            · simp [trim_audio_based_on_speech, hfs, hfe] at h
            · by_cases hc : code = 0
              · subst hc
                simp [trim_audio_based_on_speech, hfs, hfe] at h
                exact ⟨fs, fe, h.symm⟩
              · simp [trim_audio_based_on_speech, hfs, hfe, hc] at h

/-- Witness for C7: the start bound is present even at `fs = 0`; the end
bound appears exactly when the end is below the total; and a completed run
produces a command of this shape. -/
theorem C7_command_bounds_witness :
    (List.IsInfix [Tok.ss, Tok.num 0] (buildCommand 0 0 1) ∧
      (Tok.to ∈ buildCommand 0 0 1 ↔ (0 : ℚ) < 1)) ∧
    (∃ fs fe : ℚ,
      buildCommand 0 (durationSeconds ([] : List Unit))
          (durationSeconds ([] : List Unit)) =
        buildCommand fs fe (durationSeconds ([] : List Unit))) :=
  ⟨(C7_command_bounds vadNever ([] : List Unit) envOK false false).1 0 0 1,
    (C7_command_bounds vadNever ([] : List Unit) envOK false false).2 _
      trim_nil_noflags_run⟩

/-- Claim C8: with neither CLI flag both sides are trimmed; with exactly
one flag only that side's pass runs, and the other boundary stays at its
natural extreme: a disabled start side keeps `final_start_seconds = 0`, a
disabled end side keeps `final_end_seconds = total` (so no `-to` bound is
emitted). -/
theorem C8_flag_resolution {σ α : Type} (D : VAD σ α) (audio : List α) :
    resolveTrimFlags false false = (true, true) ∧
    resolveTrimFlags true false = (true, false) ∧
    resolveTrimFlags false true = (false, true) ∧
    (∀ (env : Env) (te : Bool) (cmd : List Tok),
        trim_audio_based_on_speech env D audio false te =
          ProgResult.wroteOutput cmd →
        ∃ fe, cmd = buildCommand 0 fe (durationSeconds audio)) ∧
    (∀ (env : Env) (ts : Bool) (cmd : List Tok),
        trim_audio_based_on_speech env D audio ts false =
          ProgResult.wroteOutput cmd →
        cmd = buildCommand
            (if ts then
              ((forwardPass D audio chunk_processing_size_seconds
                (durationSeconds audio)).getD 0)
            else 0)
            (durationSeconds audio) (durationSeconds audio) ∧
          Tok.to ∉ cmd) := by
  refine ⟨rfl, rfl, rfl, ?_, ?_⟩
  · intro env te cmd h
    rcases env with ⟨ml, ar, ff, code⟩
    cases ml
    · simp [trim_audio_based_on_speech] at h
    · cases ar
      · simp [trim_audio_based_on_speech] at h
      · rcases hfe : (if te then
            backwardPass D audio chunk_processing_size_seconds
              (durationSeconds audio)
          else some (durationSeconds audio)) with _ | fe
        · simp [trim_audio_based_on_speech, hfe] at h
        · cases ff
          · simp [trim_audio_based_on_speech, hfe] at h
          · by_cases hc : code = 0
            · subst hc
              simp [trim_audio_based_on_speech, hfe] at h
              exact ⟨fe, h.symm⟩
            · simp [trim_audio_based_on_speech, hfe, hc] at h
  · intro env ts cmd h
    rcases env with ⟨ml, ar, ff, code⟩
    cases ml
    · simp [trim_audio_based_on_speech] at h
    · cases ar
      · simp [trim_audio_based_on_speech] at h
      · rcases hfs : (if ts then
            forwardPass D audio chunk_processing_size_seconds
              (durationSeconds audio)
          else some 0) with _ | fs
        · simp [trim_audio_based_on_speech, hfs] at h
        · cases ff
          · simp [trim_audio_based_on_speech, hfs] at h
          · by_cases hc : code = 0
            · subst hc
              simp [trim_audio_based_on_speech, hfs] at h
              constructor
              · rw [← h]
                congr 1
                cases ts
                · simp at hfs
                  exact hfs.symm
                · simp at hfs
                  rw [hfs]
                  rfl
              · rw [← h, buildCommand]
                simp [lt_irrefl]
            · simp [trim_audio_based_on_speech, hfs, hc] at h

/-- Witness for C8: a run with the start side disabled keeps start 0. -/
theorem C8_flag_resolution_witness :
    ∃ fe, buildCommand 0 (durationSeconds ([] : List Unit))
        (durationSeconds ([] : List Unit)) =
      buildCommand 0 fe (durationSeconds ([] : List Unit)) :=
  (C8_flag_resolution vadNever ([] : List Unit)).2.2.2.1 envOK false _
    trim_nil_noflags_run

/-- Claim C10: for an input of total duration 0 both scan loops visit no
chunk interval at all (so no window is ever fed to the detector), both
passes report no speech, and with any enabled side the program returns
after the first enabled side's report, invoking no external trim tool and
writing no output file (whatever the ffmpeg environment is). -/
theorem C10_zero_duration {σ α : Type} (D : VAD σ α) (audio : List α)
    (h : durationSeconds audio = 0) :
    forwardIntervals chunk_processing_size_seconds (durationSeconds audio)
      (forwardChunkBound chunk_processing_size_seconds
        (durationSeconds audio) 0) 0 = [] ∧
    backwardIntervals chunk_processing_size_seconds
      (backwardChunkBound chunk_processing_size_seconds
        (durationSeconds audio)) (durationSeconds audio) = [] ∧
    forwardPass D audio chunk_processing_size_seconds
      (durationSeconds audio) = none ∧
    backwardPass D audio chunk_processing_size_seconds
      (durationSeconds audio) = none ∧
    (∀ env : Env, env.modelLoads = true → env.audioReads = true →
      ∀ ts te : Bool, (ts || te) = true →
        trim_audio_based_on_speech env D audio ts te =
          (if ts then ProgResult.noOutputStart else ProgResult.noOutputEnd)) := by
  have hfb : forwardChunkBound chunk_processing_size_seconds
      (durationSeconds audio) 0 = 0 := by
    rw [h]
    simp [forwardChunkBound]
  have hbb : backwardChunkBound chunk_processing_size_seconds
      (durationSeconds audio) = 0 := by
    rw [h]
    simp [backwardChunkBound]
  have hfi : forwardIntervals chunk_processing_size_seconds
      (durationSeconds audio)
      (forwardChunkBound chunk_processing_size_seconds
        (durationSeconds audio) 0) 0 = [] := by
    rw [hfb]
    rfl
  have hbi : backwardIntervals chunk_processing_size_seconds
      (backwardChunkBound chunk_processing_size_seconds
        (durationSeconds audio)) (durationSeconds audio) = [] := by
    rw [hbb]
    rfl
  have hfp : forwardPass D audio chunk_processing_size_seconds
      (durationSeconds audio) = none := by
    rw [forwardPass, hfi]
    rfl
  have hbp : backwardPass D audio chunk_processing_size_seconds
      (durationSeconds audio) = none := by
    rw [backwardPass, hbi]
    rfl
  refine ⟨hfi, hbi, hfp, hbp, ?_⟩
  intro env hml har ts te hor
  rcases env with ⟨ml, ar, ff, code⟩
  simp only at hml har
  subst hml har
  cases ts
  · cases te
    · simp at hor
    · simp [trim_audio_based_on_speech, hbp]
  · simp [trim_audio_based_on_speech, hfp]

/-- Witness for C10 on the empty (0-second) input. -/
theorem C10_zero_duration_witness :
    trim_audio_based_on_speech envOK vadNever ([] : List Unit) false true =
      ProgResult.noOutputEnd := by
  have hc := (C10_zero_duration vadNever ([] : List Unit)
    (by simp [durationSeconds])).2.2.2.2 envOK rfl rfl false true rfl
  simpa using hc

lemma getSamplesInRange_floor {α : Type} (audio : List α) (a b : ℚ)
    (i j : ℕ) (ha : ⌊a * (VAD_SAMPLING_RATE : ℚ)⌋ = (i : ℤ))
    (hb : ⌊b * (VAD_SAMPLING_RATE : ℚ)⌋ = (j : ℤ)) :
    getSamplesInRange audio a b = (audio.take j).drop i := by
  unfold getSamplesInRange
  rw [ha, hb]
  simp

lemma flatten_completeWindows_aux {α : Type} (w : ℕ) :
    ∀ (n : ℕ) (l : List α), l.length ≤ n →
      (completeWindows w l).flatten =
        l.take (l.length - l.length % w) := by
  intro n
  induction n using Nat.strong_induction_on with
  | _ n ih =>
    intro l hl
    rw [completeWindows_eq]
    by_cases h : w ≤ l.length ∧ 0 < w
    · rw [if_pos h]
      obtain ⟨hwl, hw⟩ := h
      have hlt : (l.drop w).length < n := by rw [List.length_drop]; omega
      have hrec := ih (l.drop w).length hlt (l.drop w) le_rfl
      rw [List.flatten_cons, hrec, List.length_drop]
      have hmod : l.length % w = (l.length - w) % w := by
        conv_lhs => rw [← Nat.sub_add_cancel hwl]
        rw [Nat.add_mod_right]
      have hmlt : l.length % w < w := Nat.mod_lt _ hw
      have hmle : (l.length - w) % w ≤ l.length - w := Nat.mod_le _ _
      rw [← List.take_add]
      congr 1
      omega
    · rw [if_neg h]
      rw [List.flatten_nil]
      rcases Nat.eq_zero_or_pos w with hw0 | hwpos
      · subst hw0
        rw [Nat.mod_zero, Nat.sub_self, List.take_zero]
      · have : l.length < w := by
          by_contra hc
          exact h ⟨le_of_not_lt hc, hwpos⟩
        rw [Nat.mod_eq_of_lt this, Nat.sub_self, List.take_zero]

/-- The stream of samples actually windowed out of a chunk is exactly the
chunk truncated to a multiple of the window size: the trailing partial
window is discarded. -/
lemma flatten_completeWindows {α : Type} (w : ℕ) (l : List α) :
    (completeWindows w l).flatten = l.take (l.length - l.length % w) :=
  flatten_completeWindows_aux w l.length l le_rfl

lemma forwardIntervals_head (c total : ℚ) :
    ∀ (n : ℕ) (cur : ℚ) (p : ℚ × ℚ),
      (forwardIntervals c total n cur).head? = some p → p.1 = cur := by
  intro n
  cases n with
  | zero => intro cur p h; simp [forwardIntervals] at h
  | succ n =>
    intro cur p h
    rw [forwardIntervals] at h
    by_cases hg : cur < total
    · rw [if_pos hg] at h
      simp at h
      rw [← h]
    · rw [if_neg hg] at h
      simp at h

/-- Successive forward chunk intervals abut exactly: the next chunk begins
at the previous chunk's end boundary, so the samples of a discarded
trailing partial window (which lie strictly before that boundary) are
never requested again. -/
lemma forwardIntervals_chain (c total : ℚ) :
    ∀ (n : ℕ) (cur : ℚ),
      List.Chain' (fun p q : ℚ × ℚ => q.1 = p.2)
        (forwardIntervals c total n cur) := by
  intro n
  induction n with
  | zero => intro cur; exact List.chain'_nil
  | succ n ih =>
    intro cur
    rw [forwardIntervals]
    by_cases hg : cur < total
    · rw [if_pos hg]
      rw [List.chain'_cons']
      refine ⟨?_, ih _⟩
      intro q hq
      exact forwardIntervals_head c total n _ q hq
    · rw [if_neg hg]
      exact List.chain'_nil

/-- Claim C6 (amended): within each chunk only complete
`VAD_WINDOW_SIZE_SAMPLES`-sample windows are fed to the detector; the
trailing partial window is discarded — the stream windowed out of a chunk
is the chunk truncated to a whole number of windows — and the next chunk
begins exactly at the chunk boundary, so the discarded samples are never
re-fetched. -/
theorem C6_windowing_amended {α : Type} (audio : List α)
    (l : List (ℚ × ℚ)) (c total : ℚ) (n : ℕ) (cur : ℚ) :
    (∀ u ∈ joinWindows audio l, u.length = VAD_WINDOW_SIZE_SAMPLES) ∧
    List.Chain' (fun p q : ℚ × ℚ => q.1 = p.2)
      (forwardIntervals c total n cur) ∧
    (∀ a b : ℚ,
      (chunkWindows audio (a, b)).flatten =
        (getSamplesInRange audio a b).take
          ((getSamplesInRange audio a b).length -
            (getSamplesInRange audio a b).length %
              VAD_WINDOW_SIZE_SAMPLES)) := by
  refine ⟨?_, forwardIntervals_chain c total n cur, ?_⟩
  · intro u hu
    rw [joinWindows] at hu
    rw [List.mem_flatten] at hu
    obtain ⟨ws, hws, hu2⟩ := hu
    rw [List.mem_map] at hws
    obtain ⟨p, _, hp⟩ := hws
    rw [← hp] at hu2
    exact completeWindows_length_mem _ _ u hu2
  · intro a b
    rw [chunkWindows]
    exact flatten_completeWindows _ _

/-- Witness for the amended C6: a window drawn from a concrete scan's
window stream has exactly `VAD_WINDOW_SIZE_SAMPLES` samples. -/
theorem C6_windowing_amended_witness :
    audioOneWindow.length = VAD_WINDOW_SIZE_SAMPLES := by
  have hchunk : getSamplesInRange audioOneWindow 0
      ((512 : ℚ) / (VAD_SAMPLING_RATE : ℚ)) = audioOneWindow := by
    have h512 : ((512 : ℕ) : ℚ) = (512 : ℚ) := by norm_num
    rw [← h512, getSamplesInRange_zero_div, audioOneWindow,
      List.take_replicate, min_self]
  have hw : completeWindows VAD_WINDOW_SIZE_SAMPLES audioOneWindow =
      [audioOneWindow] := by
    apply completeWindows_singleton
    · norm_num [VAD_WINDOW_SIZE_SAMPLES]
    · rw [audioOneWindow, List.length_replicate]
      rfl
  apply (C6_windowing_amended audioOneWindow
    [((0 : ℚ), (512 : ℚ) / (VAD_SAMPLING_RATE : ℚ))]
    chunk_processing_size_seconds 0 0 0).1 audioOneWindow
  rw [joinWindows_cons, joinWindows_nil, List.append_nil, chunkWindows]
  simp only [hchunk, hw]
  exact List.mem_singleton.mpr rfl

/-- Counterexample to C6 as stated: on an 80001-sample input (the sample at
index `k` has value `k`), the forward pass visits the chunk intervals
`[(0, 5), (5, 80001/16000)]`; the full stream of samples ever windowed for
the detector is `range 79872`, so sample 79872 — which lies before the last
chunk boundary (sample 80000 = ⌊5 s · 16000⌋) — is never fed: the discarded
trailing partial window of the first chunk is permanently skipped, not
re-fetched by the next chunk. -/
theorem C6_counterexample :
    forwardIntervals chunk_processing_size_seconds (durationSeconds audioC6)
        (forwardChunkBound chunk_processing_size_seconds
          (durationSeconds audioC6) 0) 0 =
      [(0, 5), (5, durationSeconds audioC6)] ∧
    (joinWindows audioC6 [(0, 5), (5, durationSeconds audioC6)]).flatten =
      List.range 79872 ∧
    (79872 : ℕ) ∉ List.range 79872 ∧
    (79872 : ℕ) < 80000 ∧
    Int.toNat ⌊(5 : ℚ) * (VAD_SAMPLING_RATE : ℚ)⌋ = 80000 := by
  have hdur : durationSeconds audioC6 = 80001 / 16000 := by
    rw [durationSeconds, audioC6, List.length_range]
    norm_num [VAD_SAMPLING_RATE]
  have hbound : forwardChunkBound chunk_processing_size_seconds
      (durationSeconds audioC6) 0 = 2 := by
    rw [hdur, forwardChunkBound, chunk_processing_size_seconds]
    have h : (⌈((80001 : ℚ) / 16000 - 0) / 5⌉ : ℤ) = 2 := by
      rw [Int.ceil_eq_iff]
      norm_num
    rw [h]
    rfl
  have hm1 : min ((0 : ℚ) + chunk_processing_size_seconds)
      (80001 / 16000) = 5 := by
    rw [chunk_processing_size_seconds, min_def]
    norm_num
  have hm2 : min ((5 : ℚ) + chunk_processing_size_seconds)
      (80001 / 16000) = 80001 / 16000 := by
    rw [chunk_processing_size_seconds, min_def]
    norm_num
  have hI : forwardIntervals chunk_processing_size_seconds
      (80001 / 16000) 2 0 = [(0, 5), (5, 80001 / 16000)] := by
    rw [forwardIntervals, if_pos (by norm_num : (0 : ℚ) < 80001 / 16000),
      hm1, forwardIntervals,
      if_pos (by norm_num : (5 : ℚ) < 80001 / 16000), hm2]
    rfl
  have hchunk1 : getSamplesInRange audioC6 0 5 = List.range 80000 := by
    rw [getSamplesInRange_floor audioC6 0 5 0 80000
      (by norm_num) (by norm_num [VAD_SAMPLING_RATE])]
    rw [List.drop_zero, audioC6, List.take_range]
    norm_num
  have hchunk2len :
      (getSamplesInRange audioC6 5 (80001 / 16000)).length = 1 := by
    rw [getSamplesInRange_floor audioC6 5 (80001 / 16000) 80000 80001
      (by norm_num [VAD_SAMPLING_RATE]) (by norm_num [VAD_SAMPLING_RATE])]
    rw [List.length_drop, List.length_take, audioC6, List.length_range]
    omega
  have hw2 : completeWindows VAD_WINDOW_SIZE_SAMPLES
      (getSamplesInRange audioC6 5 (80001 / 16000)) = [] := by
    rw [completeWindows_eq, if_neg]
    rintro ⟨h1, _⟩
    rw [hchunk2len] at h1
    norm_num [VAD_WINDOW_SIZE_SAMPLES] at h1
  refine ⟨?_, ?_, ?_, by norm_num, ?_⟩
  · rw [hbound, hdur, hI]
  · rw [hdur, joinWindows_cons, joinWindows_cons, joinWindows_nil,
      List.append_nil, List.flatten_append]
    simp only [chunkWindows]
    rw [hchunk1, hw2, List.flatten_nil, List.append_nil,
      flatten_completeWindows, List.length_range]
    norm_num [VAD_WINDOW_SIZE_SAMPLES]
    rw [List.take_range]
    norm_num
  · simp [List.mem_range]
  · norm_num [VAD_SAMPLING_RATE]
    rfl

lemma sumLen_cons {α : Type} (w : List α) (ws : List (List α)) :
    sumLen (w :: ws) = w.length + sumLen ws := by
  simp [sumLen]

lemma rate_cast_pos : (0 : ℚ) < (VAD_SAMPLING_RATE : ℚ) := by
  norm_num [VAD_SAMPLING_RATE]

lemma div_rate_lt_iff (i L : ℕ) :
    ((i : ℚ) / (VAD_SAMPLING_RATE : ℚ) <
      (L : ℚ) / (VAD_SAMPLING_RATE : ℚ)) ↔ i < L := by
  rw [div_lt_div_iff_of_pos_right rate_cast_pos]
  exact_mod_cast Iff.rfl

lemma div_rate_pos_iff (j : ℕ) :
    ((0 : ℚ) < (j : ℚ) / (VAD_SAMPLING_RATE : ℚ)) ↔ 0 < j := by
  have h := div_rate_lt_iff 0 j
  simpa using h

lemma min_div_rate (x y : ℕ) :
    min ((x : ℚ) / (VAD_SAMPLING_RATE : ℚ))
      ((y : ℚ) / (VAD_SAMPLING_RATE : ℚ)) =
      ((min x y : ℕ) : ℚ) / (VAD_SAMPLING_RATE : ℚ) := by
  rcases le_total x y with h | h
  · rw [min_eq_left, min_eq_left h]
    exact (div_le_div_iff_of_pos_right rate_cast_pos).mpr (by exact_mod_cast h)
  · rw [min_eq_right, min_eq_right h]
    exact (div_le_div_iff_of_pos_right rate_cast_pos).mpr (by exact_mod_cast h)

lemma add_div_rate (i K : ℕ) :
    (i : ℚ) / (VAD_SAMPLING_RATE : ℚ) + (K : ℚ) / (VAD_SAMPLING_RATE : ℚ) =
      (((i + K : ℕ)) : ℚ) / (VAD_SAMPLING_RATE : ℚ) := by
  rw [div_add_div_same]
  norm_cast

lemma sub_div_rate_max (j K : ℕ) :
    max 0 ((j : ℚ) / (VAD_SAMPLING_RATE : ℚ) -
        (K : ℚ) / (VAD_SAMPLING_RATE : ℚ)) =
      (((j - K : ℕ)) : ℚ) / (VAD_SAMPLING_RATE : ℚ) := by
  rcases le_total j K with h | h
  · rw [max_eq_left, Nat.sub_eq_zero_of_le h]
    · norm_num
    · rw [sub_nonpos]
      exact (div_le_div_iff_of_pos_right rate_cast_pos).mpr
        (by exact_mod_cast h)
  · rw [div_sub_div_same, max_eq_right, Nat.cast_sub h]
    rw [← Nat.cast_sub h]
    positivity

lemma chunkSeconds_cast : chunk_processing_size_seconds =
    ((80000 : ℕ) : ℚ) / (VAD_SAMPLING_RATE : ℚ) := by
  norm_num [chunk_processing_size_seconds, VAD_SAMPLING_RATE]

lemma feedForward_sane_bound {σ α : Type} (D : VAD σ α) (count : σ → ℕ)
    (hs : IndexSane D count) :
    ∀ (ws : List (List α)) (s : σ) (n : ℕ),
      (feedForward D s ws).2 = some n → n ≤ count s + sumLen ws := by
  intro ws
  induction ws with
  | nil =>
    intro s n h
    simp [feedForward] at h
  | cons w tail ih =>
    intro s n h
    rcases hstep : D.step s w with ⟨s', d?⟩
    rw [feedForward, hstep] at h
    have hcnt : count s' = count s + w.length := by
      have h1 := (hs.2 s w).1
      rw [hstep] at h1
      exact h1
    rw [sumLen_cons]
    cases d? with
    | none =>
      have h2 := ih s' n h
      omega
    | some d =>
      rcases d with ⟨sIdx, eIdx⟩
      cases sIdx with
      | none =>
        have h2 := ih s' n h
        omega
      | some m =>
        simp at h
        have hd := (hs.2 s w).2 ⟨some m, eIdx⟩ (by rw [hstep])
        have h3 := hd.1 m rfl
        omega

lemma feedBackward_sane_bound {σ α : Type} (D : VAD σ α) (count : σ → ℕ)
    (hs : IndexSane D count) :
    ∀ (ws : List (List α)) (s : σ) (last0 : Option ℕ) (spk : Bool) (n : ℕ),
      (feedBackward D s last0 spk ws).2.1 = some n →
      last0 = some n ∨ n ≤ count s + sumLen ws := by
  intro ws
  induction ws with
  | nil =>
    intro s last0 spk n h
    simp [feedBackward] at h
    exact Or.inl h
  | cons w tail ih =>
    intro s last0 spk n h
    rcases hstep : D.step s w with ⟨s', d?⟩
    rw [feedBackward, hstep] at h
    have hcnt : count s' = count s + w.length := by
      have h1 := (hs.2 s w).1
      rw [hstep] at h1
      exact h1
    rw [sumLen_cons]
    cases d? with
    | none =>
      rcases ih s' last0 spk n h with h2 | h2
      · exact Or.inl h2
      · right; omega
    | some d =>
      rcases d with ⟨sIdx, eIdx⟩
      cases eIdx with
      | none =>
        rcases ih s' last0 _ n h with h2 | h2
        · exact Or.inl h2
        · right; omega
      | some m =>
        rcases ih s' (some m) false n h with h2 | h2
        · right
          have hd := (hs.2 s w).2 ⟨sIdx, some m⟩ (by rw [hstep])
          have h3 := hd.2 m rfl
          simp at h2
          omega
        · right; omega

lemma sumLen_joinWindows_forward {α : Type} (audio : List α) (K : ℕ) :
    ∀ (n i : ℕ), i ≤ audio.length →
      sumLen (joinWindows audio
        (forwardIntervals ((K : ℚ) / (VAD_SAMPLING_RATE : ℚ))
          ((audio.length : ℚ) / (VAD_SAMPLING_RATE : ℚ)) n
          ((i : ℚ) / (VAD_SAMPLING_RATE : ℚ)))) ≤ audio.length - i := by
  intro n
  induction n with
  | zero =>
    intro i hi
    simp [forwardIntervals, joinWindows_nil, sumLen]
  | succ n ih =>
    intro i hi
    rw [forwardIntervals]
    by_cases hg : (i : ℚ) / (VAD_SAMPLING_RATE : ℚ) <
        (audio.length : ℚ) / (VAD_SAMPLING_RATE : ℚ)
    · rw [if_pos hg, add_div_rate, min_div_rate, joinWindows_cons,
        sumLen_append]
      have hii' : i ≤ min (i + K) audio.length := by
        apply le_min
        · omega
        · exact hi
      have hi'L : min (i + K) audio.length ≤ audio.length :=
        min_le_right _ _
      have hcw : sumLen (chunkWindows audio
          (((i : ℚ) / (VAD_SAMPLING_RATE : ℚ)),
            ((min (i + K) audio.length : ℕ) : ℚ) /
              (VAD_SAMPLING_RATE : ℚ))) ≤
          min (i + K) audio.length - i := by
        simp only [chunkWindows]
        rw [getSamplesInRange_div]
        have h1 := completeWindows_sumLen VAD_WINDOW_SIZE_SAMPLES
          ((audio.take (min (i + K) audio.length)).drop i)
        rw [List.length_drop, List.length_take] at h1
        have h2 : min (min (i + K) audio.length) audio.length =
            min (i + K) audio.length := min_eq_left hi'L
        rw [h2] at h1
        exact h1
      have hrest := ih (min (i + K) audio.length) hi'L
      omega
    · rw [if_neg hg]
      simp [joinWindows_nil, sumLen]

lemma backwardGo_cons {σ α : Type} (D : VAD σ α) (audio : List α) (s : σ)
    (a b : ℚ) (rest : List (ℚ × ℚ)) :
    backwardGo D audio s ((a, b) :: rest) =
      (match (if (feedBackward D D.initState none false
          (completeWindows VAD_WINDOW_SIZE_SAMPLES
            (getSamplesInRange audio a b))).2.2 then
          some (getSamplesInRange audio a b).length
        else (feedBackward D D.initState none false
          (completeWindows VAD_WINDOW_SIZE_SAMPLES
            (getSamplesInRange audio a b))).2.1 : Option ℕ) with
      | some n => some (a + (n : ℚ) / (VAD_SAMPLING_RATE : ℚ))
      | none => backwardGo D audio
          (feedBackward D D.initState none false
            (completeWindows VAD_WINDOW_SIZE_SAMPLES
              (getSamplesInRange audio a b))).1 rest) := rfl

lemma backwardGo_sane_le {σ α : Type} (D : VAD σ α) (count : σ → ℕ)
    (hs : IndexSane D count) (audio : List α) :
    ∀ (n j : ℕ) (s : σ), j ≤ audio.length →
      ∀ t : ℚ,
        backwardGo D audio s
          (backwardIntervals chunk_processing_size_seconds n
            ((j : ℚ) / (VAD_SAMPLING_RATE : ℚ))) = some t →
        0 ≤ t ∧ t ≤ (audio.length : ℚ) / (VAD_SAMPLING_RATE : ℚ) := by
  intro n
  induction n with
  | zero =>
    intro j s hj t ht
    simp [backwardIntervals, backwardGo] at ht
  | succ n ih =>
    intro j s hj t ht
    rw [backwardIntervals] at ht
    by_cases hg : (0 : ℚ) < (j : ℚ) / (VAD_SAMPLING_RATE : ℚ)
    · rw [if_pos hg, chunkSeconds_cast, sub_div_rate_max] at ht
      rw [backwardGo_cons] at ht
      rcases heff : (if (feedBackward D D.initState none false
          (completeWindows VAD_WINDOW_SIZE_SAMPLES
            (getSamplesInRange audio
              (((j - 80000 : ℕ) : ℚ) / (VAD_SAMPLING_RATE : ℚ))
              ((j : ℚ) / (VAD_SAMPLING_RATE : ℚ))))).2.2 then
          some (getSamplesInRange audio
              (((j - 80000 : ℕ) : ℚ) / (VAD_SAMPLING_RATE : ℚ))
              ((j : ℚ) / (VAD_SAMPLING_RATE : ℚ))).length
        else (feedBackward D D.initState none false
          (completeWindows VAD_WINDOW_SIZE_SAMPLES
            (getSamplesInRange audio
              (((j - 80000 : ℕ) : ℚ) / (VAD_SAMPLING_RATE : ℚ))
              ((j : ℚ) / (VAD_SAMPLING_RATE : ℚ))))).2.1 : Option ℕ)
        with _ | m
      · rw [heff] at ht
        simp only [] at ht
        rw [← chunkSeconds_cast] at ht
        exact ih (j - 80000) _ (by omega) t ht
      · rw [heff] at ht
        simp only [Option.some.injEq] at ht
        have hlen : (getSamplesInRange audio
            (((j - 80000 : ℕ) : ℚ) / (VAD_SAMPLING_RATE : ℚ))
            ((j : ℚ) / (VAD_SAMPLING_RATE : ℚ))).length =
            j - (j - 80000) := by
          rw [getSamplesInRange_div, List.length_drop, List.length_take,
            min_eq_left hj]
        have hm : m ≤ j - (j - 80000) := by
          by_cases hspk : (feedBackward D D.initState none false
              (completeWindows VAD_WINDOW_SIZE_SAMPLES
                (getSamplesInRange audio
                  (((j - 80000 : ℕ) : ℚ) / (VAD_SAMPLING_RATE : ℚ))
                  ((j : ℚ) / (VAD_SAMPLING_RATE : ℚ))))).2.2 = true
          · rw [if_pos hspk] at heff
            simp only [Option.some.injEq] at heff
            rw [← heff, hlen]
          · rw [if_neg hspk] at heff
            rcases feedBackward_sane_bound D count hs _ _ _ _ _ heff
              with h | h
            · simp at h
            · rw [hs.1] at h
              have h2 := completeWindows_sumLen VAD_WINDOW_SIZE_SAMPLES
                (getSamplesInRange audio
                  (((j - 80000 : ℕ) : ℚ) / (VAD_SAMPLING_RATE : ℚ))
                  ((j : ℚ) / (VAD_SAMPLING_RATE : ℚ)))
              rw [hlen] at h2
              omega
        rw [← ht]
        constructor
        · exact add_nonneg
            (div_nonneg (Nat.cast_nonneg _) (le_of_lt rate_cast_pos))
            (div_nonneg (Nat.cast_nonneg _) (le_of_lt rate_cast_pos))
        · have hij : (j - 80000 : ℕ) + m ≤ j := by omega
          have h3 : ((j - 80000 : ℕ) : ℚ) / (VAD_SAMPLING_RATE : ℚ) +
              (m : ℚ) / (VAD_SAMPLING_RATE : ℚ) =
              (((j - 80000 : ℕ) + m : ℕ) : ℚ) / (VAD_SAMPLING_RATE : ℚ) :=
            add_div_rate _ _
          rw [h3]
          apply (div_le_div_iff_of_pos_right rate_cast_pos).mpr
          have h4 : ((j - 80000 : ℕ) + m : ℕ) ≤ audio.length := by omega
          exact_mod_cast h4
    · rw [if_neg hg] at ht
      simp [backwardGo] at ht

/-- Claim C4 (amended): for every index-sane detector — one whose reported
event indices never exceed the samples fed since its last reset, as the
real `VADIterator`'s cumulative sample offsets do — each pass's resolved
boundary lies within `[0, totalDurationSeconds]`.  The cross-pass
inequality `startSeconds ≤ endSeconds` is NOT guaranteed (see the
counterexample): the two passes run independent detector instances with
different reset patterns. -/
theorem C4_trim_window_amended {σ α : Type} (D : VAD σ α) (count : σ → ℕ)
    (hs : IndexSane D count) (audio : List α) :
    (∀ t : ℚ,
      forwardPass D audio chunk_processing_size_seconds
        (durationSeconds audio) = some t →
      0 ≤ t ∧ t ≤ durationSeconds audio) ∧
    (∀ t : ℚ,
      backwardPass D audio chunk_processing_size_seconds
        (durationSeconds audio) = some t →
      0 ≤ t ∧ t ≤ durationSeconds audio) := by
  constructor
  · intro t ht
    rw [forwardPass, forwardGo_eq_spec, forwardContinuousSpec] at ht
    rcases hX : (feedForward D D.initState (joinWindows audio
        (forwardIntervals chunk_processing_size_seconds
          (durationSeconds audio)
          (forwardChunkBound chunk_processing_size_seconds
            (durationSeconds audio) 0) 0))).2 with _ | n
    · rw [hX] at ht
      simp at ht
    · rw [hX] at ht
      simp only [Option.map_some', Option.some.injEq] at ht
      have hn := feedForward_sane_bound D count hs _ _ _ hX
      rw [hs.1] at hn
      have hb := sumLen_joinWindows_forward audio 80000
        (forwardChunkBound chunk_processing_size_seconds
          (durationSeconds audio) 0) 0 (Nat.zero_le _)
      rw [show (((0 : ℕ) : ℚ) / (VAD_SAMPLING_RATE : ℚ)) = (0 : ℚ) from
        by simp] at hb
      rw [← chunkSeconds_cast] at hb
      rw [show ((audio.length : ℚ) / (VAD_SAMPLING_RATE : ℚ)) =
        durationSeconds audio from rfl] at hb
      have hnL : n ≤ audio.length := by omega
      rw [← ht]
      constructor
      · exact div_nonneg (Nat.cast_nonneg _) (le_of_lt rate_cast_pos)
      · rw [durationSeconds]
        apply (div_le_div_iff_of_pos_right rate_cast_pos).mpr
        exact_mod_cast hnL
  · intro t ht
    rw [backwardPass, durationSeconds] at ht
    have h := backwardGo_sane_le D count hs audio
      (backwardChunkBound chunk_processing_size_seconds
        ((audio.length : ℚ) / (VAD_SAMPLING_RATE : ℚ)))
      audio.length D.initState le_rfl t ht
    rw [durationSeconds]
    exact h

lemma vadC4_sane : IndexSane vadC4 id := by
  refine ⟨rfl, ?_⟩
  intro s w
  constructor
  · rfl
  · intro d hd
    simp only [vadC4] at hd
    by_cases h : s = 512
    · rw [if_pos h] at hd
      simp only [Option.some.injEq] at hd
      subst hd
      constructor
      · intro n hn
        simp only [Option.some.injEq] at hn
        subst hn
        simp only [id_eq]
        exact min_le_right _ _
      · intro n hn
        simp only [Option.some.injEq] at hn
        subst hn
        simp only [id_eq]
        exact min_le_right _ _
    · rw [if_neg h] at hd
      exact absurd hd (by simp)

lemma audioC4_windows : completeWindows VAD_WINDOW_SIZE_SAMPLES audioC4 =
    [List.replicate 512 (), List.replicate 512 ()] := by
  rw [audioC4]
  have h : (1024 : ℕ) = 512 * 2 + 0 := by norm_num
  rw [h]
  have h2 := completeWindows_replicate 512 2 0 (by norm_num) (by norm_num) ()
  simp only [VAD_WINDOW_SIZE_SAMPLES]
  rw [h2]
  rfl

lemma audioC4_chunk :
    getSamplesInRange audioC4 0 ((1024 : ℚ) / 16000) = audioC4 := by
  rw [getSamplesInRange_floor audioC4 0 ((1024 : ℚ) / 16000) 0 1024
    (by norm_num) (by norm_num [VAD_SAMPLING_RATE])]
  rw [List.drop_zero, audioC4, List.take_replicate, min_self]

lemma audioC4_dur : durationSeconds audioC4 = (1024 : ℚ) / 16000 := by
  rw [durationSeconds, audioC4, List.length_replicate]
  norm_num [VAD_SAMPLING_RATE]

set_option maxRecDepth 8000 in
/-- Counterexample to C4 as stated: quantifying over all detector
behaviours (even index-sane ones), the forward start can exceed the
backward end.  `vadC4` reports, in its second window since reset, a dict
with both a start (offset 900) and an end (offset 100): the forward pass
returns 900/16000 = 9/160 s while the backward pass returns
100/16000 = 1/160 s, so `startSeconds ≤ endSeconds` fails. -/
theorem C4_counterexample :
    IndexSane vadC4 id ∧
    forwardPass vadC4 audioC4 chunk_processing_size_seconds
      (durationSeconds audioC4) = some (9 / 160) ∧
    backwardPass vadC4 audioC4 chunk_processing_size_seconds
      (durationSeconds audioC4) = some (1 / 160) ∧
    ¬((9 : ℚ) / 160 ≤ 1 / 160) := by
  have hfb : forwardChunkBound chunk_processing_size_seconds
      (durationSeconds audioC4) 0 = 1 := by
    rw [audioC4_dur, forwardChunkBound, chunk_processing_size_seconds]
    have h : (⌈((1024 : ℚ) / 16000 - 0) / 5⌉ : ℤ) = 1 := by
      rw [Int.ceil_eq_iff]
      norm_num
    rw [h]
    rfl
  have hbb : backwardChunkBound chunk_processing_size_seconds
      (durationSeconds audioC4) = 1 := by
    rw [audioC4_dur, backwardChunkBound, chunk_processing_size_seconds]
    have h : (⌈((1024 : ℚ) / 16000) / 5⌉ : ℤ) = 1 := by
      rw [Int.ceil_eq_iff]
      norm_num
    rw [h]
    rfl
  have hfI : forwardIntervals chunk_processing_size_seconds
      ((1024 : ℚ) / 16000) 1 0 = [(0, (1024 : ℚ) / 16000)] := by
    rw [forwardIntervals,
      if_pos (by norm_num : (0 : ℚ) < 1024 / 16000)]
    have hm : min ((0 : ℚ) + chunk_processing_size_seconds)
        ((1024 : ℚ) / 16000) = (1024 : ℚ) / 16000 := by
      rw [chunk_processing_size_seconds, min_def]
      norm_num
    rw [hm]
    rfl
  have hbI : backwardIntervals chunk_processing_size_seconds 1
      ((1024 : ℚ) / 16000) = [(0, (1024 : ℚ) / 16000)] := by
    rw [backwardIntervals,
      if_pos (by norm_num : (0 : ℚ) < 1024 / 16000)]
    have hm : max 0 ((1024 : ℚ) / 16000 - chunk_processing_size_seconds) =
        0 := by
      rw [chunk_processing_size_seconds, max_def]
      norm_num
    rw [hm]
    rfl
  have hFF : feedForward vadC4 vadC4.initState
      [List.replicate 512 (), List.replicate 512 ()] =
      (1024, some 900) := by
    rfl
  have hFB : feedBackward vadC4 vadC4.initState none false
      [List.replicate 512 (), List.replicate 512 ()] =
      (1024, some 100, false) := by
    rfl
  refine ⟨vadC4_sane, ?_, ?_, by norm_num⟩
  · rw [forwardPass, hfb, audioC4_dur, hfI, forwardGo, audioC4_chunk,
      audioC4_windows, hFF]
    norm_num [VAD_SAMPLING_RATE]
  · rw [backwardPass, hbb, audioC4_dur, hbI, backwardGo_cons,
      audioC4_chunk, audioC4_windows, hFB]
    norm_num [VAD_SAMPLING_RATE]

/-- Witness for the amended C4 at a concrete index-sane detector that
finds speech: both resolved boundaries land inside `[0, total]`. -/
theorem C4_trim_window_amended_witness :
    (∀ t : ℚ,
      forwardPass vadC4 audioC4 chunk_processing_size_seconds
        (durationSeconds audioC4) = some t →
      0 ≤ t ∧ t ≤ durationSeconds audioC4) ∧
    (∀ t : ℚ,
      backwardPass vadC4 audioC4 chunk_processing_size_seconds
        (durationSeconds audioC4) = some t →
      0 ≤ t ∧ t ≤ durationSeconds audioC4) :=
  C4_trim_window_amended vadC4 id vadC4_sane audioC4

lemma completeWindows_nil {α : Type} (w : ℕ) :
    completeWindows w ([] : List α) = [] := by
  rw [completeWindows_eq, if_neg]
  rintro ⟨h1, h2⟩
  simp at h1
  omega

lemma completeWindows_append {α : Type} (w : ℕ) (hw : 0 < w) :
    ∀ (n : ℕ) (xs ys : List α), xs.length ≤ n → w ∣ xs.length →
      completeWindows w (xs ++ ys) =
        completeWindows w xs ++ completeWindows w ys := by
  intro n
  induction n using Nat.strong_induction_on with
  | _ n ih =>
    intro xs ys hle hdvd
    rcases Nat.eq_zero_or_pos xs.length with h0 | hpos
    · have hnil : xs = [] := List.length_eq_zero.mp h0
      rw [hnil, List.nil_append, completeWindows_nil, List.nil_append]
    · obtain ⟨k, hk⟩ := hdvd
      have hkpos : 0 < k := by
        rcases Nat.eq_zero_or_pos k with hk0 | hkpos
        · rw [hk0, Nat.mul_zero] at hk; omega
        · exact hkpos
      have hwle : w ≤ xs.length := by
        calc w = w * 1 := (Nat.mul_one w).symm
          _ ≤ w * k := Nat.mul_le_mul_left w hkpos
          _ = xs.length := hk.symm
      rw [completeWindows_eq (w := w) (l := xs ++ ys)]
      rw [if_pos ⟨by rw [List.length_append]; omega, hw⟩]
      rw [completeWindows_eq (w := w) (l := xs)]
      rw [if_pos ⟨hwle, hw⟩]
      rw [List.take_append_of_le_length hwle,
        List.drop_append_of_le_length hwle, List.cons_append]
      congr 1
      have hdl : (xs.drop w).length = xs.length - w := List.length_drop _ _
      have hdvd2 : w ∣ (xs.drop w).length := by
        rw [hdl, hk]
        cases k with
        | zero => omega
        | succ k2 =>
          refine ⟨k2, ?_⟩
          rw [Nat.mul_succ]
          omega
      exact ih (xs.length - w) (by omega) (xs.drop w) ys (by omega) hdvd2

lemma forwardIntervals_at_total (c total : ℚ) :
    ∀ n : ℕ, forwardIntervals c total n total = [] := by
  intro n
  cases n with
  | zero => rfl
  | succ n =>
    rw [forwardIntervals, if_neg (lt_irrefl total)]

lemma joinWindows_forward_div {α : Type} (audio : List α) (K : ℕ)
    (hdvd : VAD_WINDOW_SIZE_SAMPLES ∣ K) :
    ∀ (n i : ℕ), audio.length ≤ i + n * K →
      joinWindows audio
        (forwardIntervals ((K : ℚ) / (VAD_SAMPLING_RATE : ℚ))
          ((audio.length : ℚ) / (VAD_SAMPLING_RATE : ℚ)) n
          ((i : ℚ) / (VAD_SAMPLING_RATE : ℚ))) =
      completeWindows VAD_WINDOW_SIZE_SAMPLES (audio.drop i) := by
  intro n
  induction n with
  | zero =>
    intro i hsuff
    rw [forwardIntervals, joinWindows_nil]
    rw [List.drop_eq_nil_of_le (by omega), completeWindows_nil]
  | succ n ih =>
    intro i hsuff
    rw [forwardIntervals]
    by_cases hg : (i : ℚ) / (VAD_SAMPLING_RATE : ℚ) <
        (audio.length : ℚ) / (VAD_SAMPLING_RATE : ℚ)
    · rw [if_pos hg, add_div_rate, min_div_rate, joinWindows_cons]
      have hiL : i < audio.length := (div_rate_lt_iff i audio.length).mp hg
      simp only [chunkWindows]
      rcases le_or_lt (i + K) audio.length with hle | hlt
      · rw [min_eq_left hle, getSamplesInRange_div]
        have hch : (audio.take (i + K)).drop i = (audio.drop i).take K := by
          rw [List.drop_take]
          congr 1
          omega
        rw [hch]
        have hsuff2 : audio.length ≤ (i + K) + n * K := by
          rw [Nat.succ_mul] at hsuff
          omega
        rw [ih (i + K) hsuff2]
        have hlen : ((audio.drop i).take K).length = K := by
          rw [List.length_take, List.length_drop]
          omega
        have hsplit : (audio.drop i).take K ++ audio.drop (i + K) =
            audio.drop i := by
          have hdd : audio.drop (i + K) = (audio.drop i).drop K := by
            rw [List.drop_drop]
          rw [hdd, List.take_append_drop]
        rw [← completeWindows_append VAD_WINDOW_SIZE_SAMPLES
          (by norm_num [VAD_WINDOW_SIZE_SAMPLES])
          ((audio.drop i).take K).length ((audio.drop i).take K)
          (audio.drop (i + K)) le_rfl (by rw [hlen]; exact hdvd)]
        rw [hsplit]
      · rw [min_eq_right (by omega : audio.length ≤ i + K)]
        rw [getSamplesInRange_div, List.take_length]
        rw [forwardIntervals_at_total, joinWindows_nil, List.append_nil]
    · rw [if_neg hg, joinWindows_nil]
      have hiL : ¬ i < audio.length := fun h => hg ((div_rate_lt_iff _ _).mpr h)
      rw [List.drop_eq_nil_of_le (by omega), completeWindows_nil]

lemma forwardChunkBound_suff (K L : ℕ) (hK : 0 < K) :
    L ≤ 0 + (forwardChunkBound ((K : ℚ) / (VAD_SAMPLING_RATE : ℚ))
      ((L : ℚ) / (VAD_SAMPLING_RATE : ℚ)) 0) * K := by
  have hKQ : (0 : ℚ) < (K : ℚ) := by exact_mod_cast hK
  have hRne : ((VAD_SAMPLING_RATE : ℚ)) ≠ 0 := ne_of_gt rate_cast_pos
  rw [forwardChunkBound, zero_add]
  have h1 : ((L : ℚ) / (VAD_SAMPLING_RATE : ℚ) - 0) /
      ((K : ℚ) / (VAD_SAMPLING_RATE : ℚ)) = (L : ℚ) / (K : ℚ) := by
    rw [sub_zero]
    exact div_div_div_cancel_right₀ hRne _ _
  rw [h1]
  have h2 := Int.le_ceil ((L : ℚ) / (K : ℚ))
  have h3 : (0 : ℤ) ≤ ⌈(L : ℚ) / (K : ℚ)⌉ :=
    Int.ceil_nonneg (div_nonneg (Nat.cast_nonneg _) (le_of_lt hKQ))
  have h4 : ((L : ℚ)) ≤ (⌈(L : ℚ) / (K : ℚ)⌉ : ℚ) * K := by
    calc (L : ℚ) = (L : ℚ) / K * K := by field_simp
      _ ≤ _ := mul_le_mul_of_nonneg_right h2 (le_of_lt hKQ)
  have h5 : ((⌈(L : ℚ) / (K : ℚ)⌉.toNat : ℕ) : ℚ) =
      (⌈(L : ℚ) / (K : ℚ)⌉ : ℚ) := by
    exact_mod_cast Int.toNat_of_nonneg h3
  have h6 : ((L : ℚ)) ≤ ((⌈(L : ℚ) / (K : ℚ)⌉.toNat * K : ℕ) : ℚ) := by
    push_cast
    rw [h5]
    exact h4
  exact_mod_cast h6

/-- Claim C5 (amended): the forward pass is chunk-size invariant for every
chunk duration that is a positive whole number of detector windows
(`K / VAD_SAMPLING_RATE` seconds with `VAD_WINDOW_SIZE_SAMPLES ∣ K`): any
two such chunkings produce the identical start boundary, namely the one of
a single continuous run over the complete windows of the whole input.  The
backward pass is NOT chunk-size invariant — its per-chunk state resets make
the result depend on the chunk alignment (see the counterexample). -/
theorem C5_chunk_invariance_amended {σ α : Type} (D : VAD σ α)
    (audio : List α) (K1 K2 : ℕ) (h1 : 0 < K1) (h2 : 0 < K2)
    (hd1 : VAD_WINDOW_SIZE_SAMPLES ∣ K1)
    (hd2 : VAD_WINDOW_SIZE_SAMPLES ∣ K2) :
    forwardPass D audio ((K1 : ℚ) / (VAD_SAMPLING_RATE : ℚ))
      (durationSeconds audio) =
    forwardPass D audio ((K2 : ℚ) / (VAD_SAMPLING_RATE : ℚ))
      (durationSeconds audio) := by
  have key : ∀ K : ℕ, 0 < K → VAD_WINDOW_SIZE_SAMPLES ∣ K →
      forwardPass D audio ((K : ℚ) / (VAD_SAMPLING_RATE : ℚ))
        (durationSeconds audio) =
      Option.map (fun n : ℕ => (n : ℚ) / (VAD_SAMPLING_RATE : ℚ))
        (feedForward D D.initState
          (completeWindows VAD_WINDOW_SIZE_SAMPLES audio)).2 := by
    intro K hK hdvd
    rw [forwardPass, forwardGo_eq_spec, forwardContinuousSpec,
      durationSeconds]
    have hjw := joinWindows_forward_div audio K hdvd
      (forwardChunkBound ((K : ℚ) / (VAD_SAMPLING_RATE : ℚ))
        ((audio.length : ℚ) / (VAD_SAMPLING_RATE : ℚ)) 0) 0
      (forwardChunkBound_suff K audio.length hK)
    rw [show (((0 : ℕ) : ℚ) / (VAD_SAMPLING_RATE : ℚ)) = (0 : ℚ) from
      by simp] at hjw
    rw [List.drop_zero] at hjw
    rw [hjw]
  rw [key K1 h1 hd1, key K2 h2 hd2]

/-- Witness for the amended C5 at concrete window-multiple chunk sizes
(1 window and 2 windows) on a concrete input and detector. -/
theorem C5_chunk_invariance_amended_witness :
    forwardPass vadC5 audioC5 (((512 : ℕ) : ℚ) / (VAD_SAMPLING_RATE : ℚ))
      (durationSeconds audioC5) =
    forwardPass vadC5 audioC5 (((1024 : ℕ) : ℚ) / (VAD_SAMPLING_RATE : ℚ))
      (durationSeconds audioC5) :=
  C5_chunk_invariance_amended vadC5 audioC5 512 1024 (by norm_num)
    (by norm_num) (by norm_num [VAD_WINDOW_SIZE_SAMPLES])
    (by norm_num [VAD_WINDOW_SIZE_SAMPLES])

lemma audioC5_dur : durationSeconds audioC5 = (2048 : ℚ) / 16000 := by
  rw [durationSeconds, audioC5, List.length_replicate]
  norm_num [VAD_SAMPLING_RATE]

lemma audioC5_windows : completeWindows VAD_WINDOW_SIZE_SAMPLES audioC5 =
    [List.replicate 512 (), List.replicate 512 (),
      List.replicate 512 (), List.replicate 512 ()] := by
  rw [audioC5]
  have h : (2048 : ℕ) = 512 * 4 + 0 := by norm_num
  rw [h]
  have h2 := completeWindows_replicate 512 4 0 (by norm_num) (by norm_num) ()
  simp only [VAD_WINDOW_SIZE_SAMPLES]
  rw [h2]
  rfl

lemma audioC5_chunk_full :
    getSamplesInRange audioC5 0 ((2048 : ℚ) / 16000) = audioC5 := by
  rw [getSamplesInRange_floor audioC5 0 ((2048 : ℚ) / 16000) 0 2048
    (by norm_num) (by norm_num [VAD_SAMPLING_RATE])]
  rw [List.drop_zero, audioC5, List.take_replicate, min_self]

lemma audioC5_chunk_hi :
    getSamplesInRange audioC5 ((1024 : ℚ) / 16000) ((2048 : ℚ) / 16000) =
      audioC4 := by
  rw [getSamplesInRange_floor audioC5 ((1024 : ℚ) / 16000)
    ((2048 : ℚ) / 16000) 1024 2048
    (by norm_num [VAD_SAMPLING_RATE]) (by norm_num [VAD_SAMPLING_RATE])]
  rw [audioC5, List.take_replicate, min_self, List.drop_replicate]
  rw [show (2048 - 1024 : ℕ) = 1024 from by norm_num]
  rfl

set_option maxRecDepth 8000 in
/-- Counterexample to C5 as stated: with the detector `vadC5` (index-sane:
it reports an end at offset 1000 in the second window since its last
reset), the backward pass resolves the end boundary to 1000/16000 = 1/16 s
under the source's 5-second chunking, but to 2024/16000 = 253/2000 s under
a 2-window chunking — a difference of two full window durations, beyond
the window-size granularity bound.  Chunk partitioning does alter the
numeric result of the backward pass. -/
theorem C5_counterexample :
    backwardPass vadC5 audioC5 chunk_processing_size_seconds
      (durationSeconds audioC5) = some (1 / 16) ∧
    backwardPass vadC5 audioC5 ((1024 : ℚ) / 16000)
      (durationSeconds audioC5) = some (253 / 2000) ∧
    (1024 : ℚ) / 16000 =
      2 * ((VAD_WINDOW_SIZE_SAMPLES : ℚ) / (VAD_SAMPLING_RATE : ℚ)) ∧
    (253 / 2000 - 1 / 16 : ℚ) >
      (VAD_WINDOW_SIZE_SAMPLES : ℚ) / (VAD_SAMPLING_RATE : ℚ) := by
  have hFBa : feedBackward vadC5 vadC5.initState none false
      [List.replicate 512 (), List.replicate 512 (),
        List.replicate 512 (), List.replicate 512 ()] =
      (2048, some 1000, false) := by
    rfl
  have hFBb : feedBackward vadC5 vadC5.initState none false
      [List.replicate 512 (), List.replicate 512 ()] =
      (1024, some 1000, false) := by
    rfl
  have hbb1 : backwardChunkBound chunk_processing_size_seconds
      (durationSeconds audioC5) = 1 := by
    rw [audioC5_dur, backwardChunkBound, chunk_processing_size_seconds]
    have h : (⌈((2048 : ℚ) / 16000) / 5⌉ : ℤ) = 1 := by
      rw [Int.ceil_eq_iff]
      norm_num
    rw [h]
    rfl
  have hbb2 : backwardChunkBound ((1024 : ℚ) / 16000)
      (durationSeconds audioC5) = 2 := by
    rw [audioC5_dur, backwardChunkBound]
    have h : (⌈((2048 : ℚ) / 16000) / ((1024 : ℚ) / 16000)⌉ : ℤ) = 2 := by
      rw [show ((2048 : ℚ) / 16000) / ((1024 : ℚ) / 16000) = 2 from
        by norm_num]
      exact Int.ceil_intCast 2
    rw [h]
    rfl
  have hbI1 : backwardIntervals chunk_processing_size_seconds 1
      ((2048 : ℚ) / 16000) = [(0, (2048 : ℚ) / 16000)] := by
    rw [backwardIntervals, if_pos (by norm_num : (0 : ℚ) < 2048 / 16000)]
    have hm : max 0 ((2048 : ℚ) / 16000 - chunk_processing_size_seconds) =
        0 := by
      rw [chunk_processing_size_seconds, max_def]
      norm_num
    rw [hm]
    rfl
  have hbI2 : backwardIntervals ((1024 : ℚ) / 16000) 2
      ((2048 : ℚ) / 16000) =
      [((1024 : ℚ) / 16000, (2048 : ℚ) / 16000),
        (0, (1024 : ℚ) / 16000)] := by
    rw [backwardIntervals, if_pos (by norm_num : (0 : ℚ) < 2048 / 16000)]
    have hm1 : max 0 ((2048 : ℚ) / 16000 - (1024 : ℚ) / 16000) =
        (1024 : ℚ) / 16000 := by
      rw [max_def]
      norm_num
    rw [hm1, backwardIntervals,
      if_pos (by norm_num : (0 : ℚ) < 1024 / 16000)]
    have hm2 : max 0 ((1024 : ℚ) / 16000 - (1024 : ℚ) / 16000) = 0 := by
      norm_num
    rw [hm2]
    rfl
  refine ⟨?_, ?_, by norm_num [VAD_WINDOW_SIZE_SAMPLES, VAD_SAMPLING_RATE],
    by norm_num [VAD_WINDOW_SIZE_SAMPLES, VAD_SAMPLING_RATE]⟩
  · rw [backwardPass, hbb1, audioC5_dur, hbI1, backwardGo_cons,
      audioC5_chunk_full, audioC5_windows, hFBa]
    norm_num [VAD_SAMPLING_RATE]
  · rw [backwardPass, hbb2, audioC5_dur, hbI2, backwardGo_cons,
      audioC5_chunk_hi, audioC4_windows, hFBb]
    norm_num [VAD_SAMPLING_RATE]
